import Mathlib

/-!
# earlygrave: a composable request-filtering pipeline

A shallow embedding of the Go package `earlygrave` (`earlygrave.go`,
`filters.go`, `helpers.go`) together with the properties its specification
states about it.

Modelling conventions.

* A Go `error` is `Option GoError`; `none` is the nil error.
* The filter core (`identity`, `New`, `ValidateParam`, `ExtractParam`) never
  looks inside a request, so it is embedded for an arbitrary request type
  `Req`; this covers `*http.Request` including the nil pointer.
* The parameter modules read `r.URL.Query()` and `r.Context()`; for them a
  request is the record `Request` below (a non-nil `*http.Request` with a
  non-nil URL, which is what `http.NewRequest` produces).
* A Go `string` is a Lean `String`; `len` is the UTF-8 byte length.
* The pieces of the Go standard library the package calls (`strconv.Atoi`,
  `strconv.Quote`, `url.Values.Get`, `context.WithValue`, `strings.HasPrefix`)
  are transcribed from the standard library's own sources.
-/

namespace Earlygrave

/-! ## Errors -/

/-- Go error values that occur in the package: `*errors.errorString` (what
`errors.New` and a `fmt.Errorf` without `%w` return) and `*strconv.NumError`. -/
inductive GoError where
  | errorString (s : String)
  | numError (Func : String) (Num : String) (Err : GoError)
  deriving DecidableEq

/-! ## Filter core (`earlygrave.go`) -/

/-- A `Filter` maps a request to a request and an error. -/
abbrev Filter (Req : Type) := Req → Req × Option GoError

/-- A `ConfigFilter` decorates a filter. -/
abbrev ConfigFilter (Req : Type) := Filter Req → Filter Req

/-- A `Validate` function checks a request. -/
abbrev Validate (Req : Type) := Req → Option GoError

/-- An `Extract` function maps a request to a request and an error. -/
abbrev Extract (Req : Type) := Req → Req × Option GoError

/-- The function `identity`: `return r, nil`. -/
def identity {Req : Type} : Filter Req := fun r => (r, none)

/-- The function `New`: starting from `identity`, every decorator of `cfgs` is
applied in turn to the filter built so far (`res = decorator(res)`). -/
def New {Req : Type} (cfgs : List (ConfigFilter Req)) : Filter Req :=
  cfgs.foldl (fun res decorator => decorator res) identity

/-- The function `ValidateParam`: on a validation error `return r, err`,
otherwise `return f(r)`. -/
def ValidateParam {Req : Type} (validate : Validate Req) : ConfigFilter Req :=
  fun f r =>
    match validate r with
    | some err => (r, some err)
    | none => f r

/-- The function `ExtractParam`: `nr, err := extract(r)`; on an error
`return r, err`, otherwise `return f(nr)`. -/
def ExtractParam {Req : Type} (extract : Extract Req) : ConfigFilter Req :=
  fun f r =>
    match extract r with
    | (_, some err) => (r, some err)
    | (nr, none) => f nr

/-! ## Requests, query values and contexts -/

/-- The type `url.Values` (`map[string][]string`), as an association list. -/
structure Values where
  entries : List (String × List String)
  deriving DecidableEq

/-- The method `url.Values.Get`: the first value stored under `key`, or the
empty string when there is none. -/
def Values.Get (v : Values) (key : String) : String :=
  match v.entries.lookup key with
  | some (x :: _) => x
  | _ => ""

/-- The struct `Pagination`. -/
structure Pagination where
  Limit : String
  Offset : String
  deriving DecidableEq

/-- The struct `Sort` of `filters.go` (`Sort` is reserved in Lean). -/
structure SortSpec where
  Column : String
  Direction : String
  deriving DecidableEq

/-- Context keys: the package's private `ctxKey` type, and keys of any other
type (which never equal a `ctxKey`). -/
inductive CtxKey where
  | ctxKey (n : Int)
  | foreign (name : String)
  deriving DecidableEq

/-- The constant `ctxKeyPagination = ctxKey(1)`. -/
def ctxKeyPagination : CtxKey := CtxKey.ctxKey 1

/-- The constant `ctxKeySort = ctxKey(2)`. -/
def ctxKeySort : CtxKey := CtxKey.ctxKey 2

/-- Values of Go's `any` that a context can hold, by dynamic type. -/
inductive Any where
  | pagination (p : Pagination)
  | sort (s : SortSpec)
  | foreign (repr : String)
  deriving DecidableEq

/-- A `context.Context`: the chain of `WithValue` entries, innermost (most
recently attached) first; the empty chain is `context.Background()`. -/
structure Context where
  entries : List (CtxKey × Any)
  deriving DecidableEq

/-- The method `Context.Value`: the value of the innermost entry whose key
equals `key`, `none` (nil) when there is none. -/
def Context.Value (c : Context) (key : CtxKey) : Option Any :=
  match c.entries.find? (fun e => decide (e.1 = key)) with
  | some e => some e.2
  | none => none

/-- The function `context.WithValue`. -/
def WithValue (parent : Context) (key : CtxKey) (val : Any) : Context :=
  ⟨(key, val) :: parent.entries⟩

/-- The part of a `url.URL` the package reads: `Query` is the parsed query
string, the result of the method `URL.Query()`. -/
structure URL where
  Path : String
  Query : Values
  deriving DecidableEq

/-- A non-nil `*http.Request`. -/
structure Request where
  Method : String
  URL : URL
  ctx : Context
  deriving DecidableEq

/-- The method `Request.Context`. -/
def Request.Context (r : Request) : Earlygrave.Context := r.ctx

/-- The method `Request.WithContext`: a copy of the request with its context
replaced. -/
def Request.WithContext (r : Request) (ctx : Earlygrave.Context) : Request :=
  { r with ctx := ctx }

/-! ## `strconv` -/

/-- The constant `strconv.IntSize`, the size of Go's `int` on the platform. -/
inductive IntSize where
  | bits32
  | bits64
  deriving DecidableEq

/-- The number of bits of an `int`. -/
def IntSize.bits : IntSize → Nat
  | IntSize.bits32 => 32
  | IntSize.bits64 => 64

/-- The sentinel `strconv.ErrSyntax`. -/
def ErrSyntax : GoError := GoError.errorString "invalid syntax"

/-- The sentinel `strconv.ErrRange`. -/
def ErrRange : GoError := GoError.errorString "value out of range"

/-- The helper `strconv.syntaxError`. -/
def syntaxError (fn str : String) : GoError := GoError.numError fn str ErrSyntax

/-- The helper `strconv.rangeError`. -/
def rangeError (fn str : String) : GoError := GoError.numError fn str ErrRange

/-- The test `'0' <= c && c <= '9'` on a byte. A byte of a multi-byte UTF-8
sequence is at least 0x80, so scanning characters instead of bytes meets a
non-digit at the same place. -/
def isDigit (c : Char) : Bool := decide (48 ≤ c.toNat ∧ c.toNat ≤ 57)

/-- The digit value `c - '0'`. -/
def digitVal (c : Char) : Nat := c.toNat - 48

/-- The constant `maxUint64`. -/
def maxUint64 : Nat := 2 ^ 64 - 1

/-- The scanning loop of `strconv.ParseUint` for base 10, on `uint64`
arithmetic: a character that is no decimal digit is a syntax error (for base
10 the letter digits are rejected by `d >= byte(base)` and `_` by the default
case); a digit that takes the value past `maxVal` is a range error. -/
def parseUintLoop (s0 : String) (cutoff maxVal : Nat) : List Char → Nat → Nat × Option GoError
  | [], n => (n, none)
  | c :: cs, n =>
    if isDigit c then
      let d := digitVal c
      if n ≥ cutoff then (maxVal, some (rangeError "ParseUint" s0))
      else
        let n10 := n * 10 % 2 ^ 64
        let n1 := (n10 + d) % 2 ^ 64
        if n1 < n10 ∨ n1 > maxVal then (maxVal, some (rangeError "ParseUint" s0))
        else parseUintLoop s0 cutoff maxVal cs n1
    else (0, some (syntaxError "ParseUint" s0))

/-- The function `strconv.ParseUint(s, 10, bitSize)` for `bitSize` 32 or 64. -/
def ParseUint (s : String) (bitSize : Nat) : Nat × Option GoError :=
  if s = "" then (0, some (syntaxError "ParseUint" s))
  else
    let cutoff := maxUint64 / 10 + 1
    let maxVal := (2 ^ bitSize % 2 ^ 64 + 2 ^ 64 - 1) % 2 ^ 64
    parseUintLoop s cutoff maxVal s.data 0

/-- The sign handling of `strconv.ParseInt`: a leading `+` or `-` is cut off;
the result is `neg` and the rest of the string. -/
def splitSign : List Char → Bool × List Char
  | '+' :: cs => (false, cs)
  | '-' :: cs => (true, cs)
  | cs => (false, cs)

/-- The function `strconv.ParseInt(s, 10, 0)`; bit size 0 stands for
`IntSize`. -/
def ParseInt (intSize : IntSize) (s : String) : Int × Option GoError :=
  if s = "" then (0, some (syntaxError "ParseInt" s))
  else
    let s0 := s
    let neg := (splitSign s.data).1
    let res := ParseUint (String.mk (splitSign s.data).2) intSize.bits
    let un := res.1
    let cutoff := 2 ^ (intSize.bits - 1)
    let checked : Int × Option GoError :=
      if neg = false ∧ un ≥ cutoff then ((cutoff : Int) - 1, some (rangeError "ParseInt" s0))
      else if neg = true ∧ un > cutoff then (-(cutoff : Int), some (rangeError "ParseInt" s0))
      else if neg = true then (-(un : Int), none)
      else ((un : Int), none)
    match res.2 with
    | some (GoError.numError _ _ e) =>
      if e ≠ ErrRange then (0, some (GoError.numError "ParseInt" s0 e)) else checked
    | _ => checked

/-- The digit loop of the fast path of `strconv.Atoi`: `none` stands for the
`return 0, syntaxError(fnAtoi, s0)` inside the loop. -/
def atoiFastLoop : List Char → Int → Option Int
  | [], n => some n
  | ch :: cs, n =>
    if isDigit ch then atoiFastLoop cs (n * 10 + (digitVal ch : Int))
    else none

/-- The test `s[0] == '-' || s[0] == '+'` of `strconv.Atoi`. -/
def hasSign : List Char → Bool
  | '-' :: _ => true
  | '+' :: _ => true
  | _ => false

/-- The function `strconv.Atoi`: a fast path for short strings, and
`ParseInt(s, 10, 0)` with the error's `Func` renamed for the others. -/
def Atoi (intSize : IntSize) (s : String) : Int × Option GoError :=
  let sLen := s.utf8ByteSize
  if (intSize.bits = 32 ∧ 0 < sLen ∧ sLen < 10) ∨ (intSize.bits = 64 ∧ 0 < sLen ∧ sLen < 19) then
    let s0 := s
    let body := if hasSign s.data then s.data.drop 1 else s.data
    if hasSign s.data = true ∧ body.length < 1 then (0, some (syntaxError "Atoi" s0))
    else
      match atoiFastLoop body 0 with
      | none => (0, some (syntaxError "Atoi" s0))
      | some n => if s0.data.head? = some '-' then (-n, none) else (n, none)
  else
    match ParseInt intSize s with
    | (i64, some (GoError.numError _ num err)) => (i64, some (GoError.numError "Atoi" num err))
    | (i64, err) => (i64, err)

/-- The digit table `lowerhex` of `strconv`, indexed. -/
def lowerhex (n : Nat) : Char := "0123456789abcdef".data.getD n '0'

/-- The loop `for s := top; s >= 0; s -= 4 { lowerhex[r>>uint(s)&0xF] }` of
`appendEscapedRune`, for `count` hexadecimal digits. -/
def hexDigits (r : Nat) : Nat → List Char
  | 0 => []
  | count + 1 => lowerhex (r / 16 ^ count % 16) :: hexDigits r count

/-- The function `strconv.appendEscapedRune` as `strconv.Quote` calls it (the
quote is `"`, neither `ASCIIonly` nor `graphicOnly`), returning what it
appends. `IsPrint` is `strconv.IsPrint`, which is defined by tables of Unicode
ranges and is taken as a parameter. A Lean `Char` is a valid rune, so the
`!utf8.ValidRune(r)` case does not arise. -/
def appendEscapedRune (IsPrint : Char → Bool) (r : Char) : List Char :=
  if r = Char.ofNat 34 ∨ r = Char.ofNat 92 then [Char.ofNat 92, r]
  else if IsPrint r then [r]
  else if r = Char.ofNat 7 then [Char.ofNat 92, 'a']
  else if r = Char.ofNat 8 then [Char.ofNat 92, 'b']
  else if r = Char.ofNat 12 then [Char.ofNat 92, 'f']
  else if r = Char.ofNat 10 then [Char.ofNat 92, 'n']
  else if r = Char.ofNat 13 then [Char.ofNat 92, 'r']
  else if r = Char.ofNat 9 then [Char.ofNat 92, 't']
  else if r = Char.ofNat 11 then [Char.ofNat 92, 'v']
  else if r.toNat < 32 ∨ r.toNat = 127 then
    [Char.ofNat 92, 'x', lowerhex (r.toNat / 16 % 16), lowerhex (r.toNat % 16)]
  else if r.toNat < 65536 then Char.ofNat 92 :: 'u' :: hexDigits r.toNat 4
  else Char.ofNat 92 :: 'U' :: hexDigits r.toNat 8

/-- The function `strconv.Quote` on a valid UTF-8 string. -/
def Quote (IsPrint : Char → Bool) (s : String) : String :=
  String.mk (Char.ofNat 34 :: (s.data.flatMap (appendEscapedRune IsPrint) ++ [Char.ofNat 34]))

/-- The method `Error()` of an error value: the text of an `errorString`, and
for a `NumError` the text
`"strconv." + e.Func + ": " + "parsing " + Quote(e.Num) + ": " + e.Err.Error()`. -/
def GoError.Error (IsPrint : Char → Bool) : GoError → String
  | GoError.errorString s => s
  | GoError.numError fn num err =>
    "strconv." ++ fn ++ ": " ++ "parsing " ++ Quote IsPrint num ++ ": " ++ GoError.Error IsPrint err

/-- The Latin-1 fast check at the head of `strconv.IsPrint`, restricted to
ASCII: the characters from space to `~` are printable. -/
def IsPrintASCII (r : Char) : Bool := decide (32 ≤ r.toNat ∧ r.toNat ≤ 126)

/-! ## `strings` -/

/-- The function `strings.HasPrefix`; a string literal is valid UTF-8, so a
byte-wise match is a character-wise match. -/
def HasPrefix (s pre : String) : Bool := pre.data.isPrefixOf s.data

/-- The slice `s[1:]` of a string whose first byte is an ASCII character. -/
def sliceFrom1 (s : String) : String := String.mk (s.data.drop 1)

/-! ## Parameter modules (`filters.go`) -/

/-- The function `PaginationValidator`. The platform's `int` size, on which
`strconv.Atoi` depends, is a parameter. -/
def PaginationValidator (intSize : IntSize) : ConfigFilter Request :=
  let validate : Validate Request := fun r =>
    let values := r.URL.Query
    let limit := values.Get "limit"
    let offset := values.Get "offset"
    let err := (Atoi intSize limit).2
    if limit ≠ "" ∧ err ≠ none then err
    else
      let err := (Atoi intSize offset).2
      if offset ≠ "" ∧ err ≠ none then err
      else none
  ValidateParam validate

/-- The function `PaginationExtractor`. -/
def PaginationExtractor (defaultPagination : Pagination) : ConfigFilter Request :=
  let extract : Extract Request := fun r =>
    let result : Pagination :=
      { Offset := defaultPagination.Offset, Limit := defaultPagination.Limit }
    let values := r.URL.Query
    let limit := values.Get "limit"
    let result := if limit ≠ "" then { result with Limit := limit } else result
    let offset := values.Get "offset"
    let result := if offset ≠ "" then { result with Offset := offset } else result
    (r.WithContext (WithValue r.Context ctxKeyPagination (Any.pagination result)), none)
  ExtractParam extract

/-- The function `SortValidator`; `fmt.Errorf("%s is not sortable", column)`
is the `errorString` of the column followed by the rest of the format. -/
def SortValidator (sortedColumns : List String) : ConfigFilter Request :=
  let validate : Validate Request := fun r =>
    let values := r.URL.Query
    let column := values.Get "sort"
    if column = "" then none
    else
      let column := if HasPrefix column "-" then sliceFrom1 column else column
      let found := sortedColumns.any (fun sortedCol => decide (sortedCol = column))
      if found = false then some (GoError.errorString (column ++ " is not sortable"))
      else none
  ValidateParam validate

/-- The function `SortExtractor`. -/
def SortExtractor (defaultSort : SortSpec) : ConfigFilter Request :=
  let extract : Extract Request := fun r =>
    let result : SortSpec :=
      { Column := defaultSort.Column, Direction := defaultSort.Direction }
    let values := r.URL.Query
    let sort := values.Get "sort"
    let result : SortSpec :=
      if sort ≠ "" then
        if HasPrefix sort "-" then { Column := sliceFrom1 sort, Direction := "DESC" }
        else { Column := sort, Direction := "ASC" }
      else result
    (r.WithContext (WithValue r.Context ctxKeySort (Any.sort result)), none)
  ExtractParam extract

/-! ## Context accessors (`helpers.go`) -/

/-- The conversion `ECtxNotExist(err)`: `ECtxNotExist` is declared as
`type ECtxNotExist error`, an interface type with the method set of `error`, so
the conversion keeps the error value as it is. -/
def ECtxNotExist (err : GoError) : GoError := err

/-- The function `GetPaginationContext`. -/
def GetPaginationContext (r : Request) : Pagination × Option GoError :=
  match r.Context.Value ctxKeyPagination with
  | some (Any.pagination v) => (v, none)
  | _ => ({ Limit := "", Offset := "" },
      some (ECtxNotExist (GoError.errorString "No pagination was found")))

/-- The function `GetSortContext`. -/
def GetSortContext (r : Request) : SortSpec × Option GoError :=
  match r.Context.Value ctxKeySort with
  | some (Any.sort v) => (v, none)
  | _ => ({ Column := "", Direction := "" },
      some (ECtxNotExist (GoError.errorString "No sort was found")))

/-- The type assertion `err.(ECtxNotExist)` of the tests, as its `ok` result.
An assertion to an interface type holds when the value is non-nil and its
dynamic type implements the interface; `ECtxNotExist` has the method set of
`error` (the one method `Error() string`), which the dynamic type of every
error value implements. -/
def isECtxNotExist (err : Option GoError) : Bool :=
  match err with
  | some _ => true
  | none => false

/-! ## The choice validator -/

/-- Modelled from the spec: the function `ChoiceValidator`, which
`TestChoiceValidator` calls and whose source is not among the package's files.
Section 4.8: given a parameter name and a set of allowed string values, if the
named query parameter is present, non-empty, and not a member of the allowed
set, fail with an error whose message is exactly
`<value> is an invalid option for <paramName>`; absent or empty is valid. The
allowed set is the list of its members; like the other validators it is built
with `ValidateParam`. -/
def ChoiceValidator (paramName : String) (allowed : List String) : ConfigFilter Request :=
  let validate : Validate Request := fun r =>
    let value := r.URL.Query.Get paramName
    if value ≠ "" ∧ value ∉ allowed then
      some (GoError.errorString (value ++ " is an invalid option for " ++ paramName))
    else none
  ValidateParam validate

/-! ## Test fixtures -/

/-- A request as `http.NewRequest(http.MethodGet, url, nil)` builds it, given
the parsed query of the URL. -/
def newRequest (query : List (String × List String)) : Request :=
  { Method := "GET", URL := { Path := "/", Query := ⟨query⟩ }, ctx := ⟨[]⟩ }

/-- The extractor `extractor1` of `TestExtractParamFailure`, on a nil-able
request pointer: `return nil, fmt.Errorf("Oops!")`. -/
def extractor1 : Extract (Option Request) :=
  fun _ => (none, some (GoError.errorString "Oops!"))

/-- An extract function with an effect that depends on the order of the steps:
it appends `tag` to the request's method. -/
def appendMethod (tag : String) : Extract Request :=
  fun r => ({ r with Method := r.Method ++ tag }, none)

/-- A validate function that fails with the message `msg` on the requests whose
method is `m`. -/
def rejectMethod (m msg : String) : Validate Request :=
  fun r => if r.Method = m then some (GoError.errorString msg) else none

/-- The column name of a `sort` query value: the value without one leading
`-`, if it has one. -/
def columnName (sort : String) : String :=
  match sort.data with
  | '-' :: cs => String.mk cs
  | _ => sort

/-- The `Sort` a `sort` query value stands for: the default when the value is
empty; the rest of the value, descending, when it starts with `-`; the value
itself, ascending, otherwise. -/
def sortOfQuery (d : SortSpec) (sort : String) : SortSpec :=
  if sort = "" then d
  else
    match sort.data with
    | '-' :: rest => { Column := String.mk rest, Direction := "DESC" }
    | _ => { Column := sort, Direction := "ASC" }

/-- The `Pagination` the query of a request stands for: the `limit` and `offset`
query values, each replaced by the default's when it is empty. -/
def paginationOfQuery (d : Pagination) (q : Values) : Pagination :=
  { Limit := if q.Get "limit" ≠ "" then q.Get "limit" else d.Limit,
    Offset := if q.Get "offset" ≠ "" then q.Get "offset" else d.Offset }

/-! ## Integer literals

Vocabulary for the claims about the pagination validator. -/

/-- The value of a run of decimal digits read after the value `n`. -/
def decimalValue : List Char → Nat → Nat
  | [], n => n
  | c :: cs, n => decimalValue cs (n * 10 + digitVal c)

/-- The part of a string after its optional sign. -/
def unsignedPart (s : String) : List Char := (splitSign s.data).2

/-- A base-10 integer literal: an optional sign followed by one or more decimal
digits. -/
def isIntLiteral (s : String) : Bool :=
  decide (unsignedPart s ≠ []) && (unsignedPart s).all isDigit

/-- The integer a base-10 literal denotes. -/
def literalValue (s : String) : Int :=
  if (splitSign s.data).1 then -(decimalValue (unsignedPart s) 0 : Int)
  else (decimalValue (unsignedPart s) 0 : Int)

/-- The values of Go's `int`: from `-2^(bits-1)` to `2^(bits-1) - 1`. -/
def inIntRange (intSize : IntSize) (v : Int) : Prop :=
  -(2 ^ (intSize.bits - 1) : Int) ≤ v ∧ v ≤ (2 ^ (intSize.bits - 1) : Int) - 1

instance inIntRange.decidable (intSize : IntSize) (v : Int) : Decidable (inIntRange intSize v) := by
  unfold inIntRange; exact inferInstance

/-- The decimal digits a string has after its optional sign, up to the first
character that is no digit. -/
def leadingDigits (s : String) : List Char := (unsignedPart s).takeWhile isDigit

/-- A character that `strconv.Quote` copies as it is: printable, and neither
the double quote nor the backslash. -/
def isPlain (IsPrint : Char → Bool) (c : Char) : Bool :=
  IsPrint c && decide (c ≠ Char.ofNat 34) && decide (c ≠ Char.ofNat 92)

/-! ## Pipelines of adapter steps

Vocabulary for the claims about pipelines whose steps are all built with
`ValidateParam` or `ExtractParam`. -/

/-- A configuration step built with one of the two adapters. -/
inductive Step (Req : Type) where
  | validate (v : Validate Req)
  | extract (e : Extract Req)

/-- The configuration step itself. -/
def Step.config {Req : Type} : Step Req → ConfigFilter Req
  | Step.validate v => ValidateParam v
  | Step.extract e => ExtractParam e

/-- The error the step's own function returns on `r`. -/
def Step.err {Req : Type} : Step Req → Req → Option GoError
  | Step.validate v, r => v r
  | Step.extract e, r => (e r).2

/-- The request the step's own function hands on: a validator hands on its
input, an extractor the request it returns. -/
def Step.out {Req : Type} : Step Req → Req → Req
  | Step.validate _, r => r
  | Step.extract e, r => (e r).1

/-- Running steps one after the other, first to last, while they succeed:
`some r'` when all of them succeed and the last hands on `r'`. -/
def runAll {Req : Type} : List (Step Req) → Req → Option Req
  | [], r => some r
  | s :: rest, r =>
    match s.err r with
    | none => runAll rest (s.out r)
    | some _ => none

/-- Running steps one after the other, first to last, stopping at the first
that fails with the request that step received. -/
def exec {Req : Type} : List (Step Req) → Req → Req × Option GoError
  | [], r => (r, none)
  | s :: rest, r =>
    match s.err r with
    | none => exec rest (s.out r)
    | some e => (r, some e)

/-! ## Properties of the filter core -/

theorem New_nil {Req : Type} : New ([] : List (ConfigFilter Req)) = identity := rfl

theorem New_concat {Req : Type} (cfgs : List (ConfigFilter Req)) (c : ConfigFilter Req) :
    New (cfgs ++ [c]) = c (New cfgs) := by
  simp [New, List.foldl_append]

theorem ExtractParam_ok {Req : Type} (e : Extract Req) (f : Filter Req) (r nr : Req)
    (h : e r = (nr, none)) : ExtractParam e f r = f nr := by
  simp [ExtractParam, h]

theorem ExtractParam_fail {Req : Type} (e : Extract Req) (f : Filter Req) (r nr : Req)
    (err : GoError) (h : e r = (nr, some err)) : ExtractParam e f r = (r, some err) := by
  simp [ExtractParam, h]

theorem Step_config_ok {Req : Type} (s : Step Req) (f : Filter Req) (r : Req)
    (h : s.err r = none) : s.config f r = f (s.out r) := by
  cases s with
  | validate v => simp [Step.err] at h; simp [Step.config, Step.out, ValidateParam, h]
  | extract e =>
    simp [Step.err] at h
    exact ExtractParam_ok e f r (e r).1 (Prod.ext rfl h)

theorem Step_config_fail {Req : Type} (s : Step Req) (f : Filter Req) (r : Req) (err : GoError)
    (h : s.err r = some err) : s.config f r = (r, some err) := by
  cases s with
  | validate v => simp [Step.err] at h; simp [Step.config, ValidateParam, h]
  | extract e =>
    simp [Step.err] at h
    exact ExtractParam_fail e f r (e r).1 err (Prod.ext rfl h)

/-- A pipeline of adapter steps runs its steps from the last argument to the
first. -/
theorem New_eq_exec {Req : Type} (steps : List (Step Req)) (r : Req) :
    New (steps.map Step.config) r = exec steps.reverse r := by
  induction steps using List.reverseRecOn generalizing r with
  | nil => rfl
  | append_singleton l s ih =>
    rw [List.map_append, List.map_singleton, New_concat, List.reverse_append,
      List.reverse_singleton, List.singleton_append]
    cases h : s.err r with
    | none => rw [Step_config_ok s _ r h, ih]; simp [exec, h]
    | some e => rw [Step_config_fail s _ r e h]; simp [exec, h]

theorem exec_append_of_runAll {Req : Type} (before rest : List (Step Req)) (r r' : Req)
    (h : runAll before r = some r') : exec (before ++ rest) r = exec rest r' := by
  induction before generalizing r with
  | nil => simp [runAll] at h; subst h; rfl
  | cons s l ih =>
    cases hs : s.err r with
    | none => simp [runAll, hs] at h; simp [exec, hs, ih _ h]
    | some e => simp [runAll, hs] at h

/-- C1 (as stated, refuted): with two succeeding extractors whose effects do
not commute, `New(ExtractParam(e1), ExtractParam(e2))` applies `e2` first and
`e1` last, so its result is not `e2(e1(r))`. -/
theorem New_left_to_right_counterexample :
    New [ExtractParam (appendMethod "1"), ExtractParam (appendMethod "2")] (newRequest [])
        = ({ newRequest [] with Method := "GET21" }, none)
      ∧ New [ExtractParam (appendMethod "1"), ExtractParam (appendMethod "2")] (newRequest [])
        ≠ (((appendMethod "2") ((appendMethod "1") (newRequest [])).1).1, none) := by
  decide

/-- C1 (amended): for extract functions `e1..en` that succeed,
`New(ExtractParam(e1), ..., ExtractParam(en))(r)` returns the request
`e1(e2(...en(r)...))` with no error: the last argument acts on the incoming
request first and the first argument acts last. -/
theorem New_extract_order {Req : Type} (es : List (Extract Req)) (r : Req)
    (h : ∀ e ∈ es, ∀ x, (e x).2 = none) :
    New (es.map ExtractParam) r = (es.foldr (fun e acc => (e acc).1) r, none) := by
  induction es using List.reverseRecOn generalizing r with
  | nil => rfl
  | append_singleton l e ih =>
    have he : e r = ((e r).1, none) := Prod.ext rfl (h e (by simp) r)
    rw [List.map_append, List.map_singleton, New_concat, ExtractParam_ok e _ r _ he,
      ih _ (fun e' he' => h e' (by simp [he'])), List.foldr_append]
    rfl

/-- An instance of `New_extract_order`: two extractors that append `1` and `2` to
the method of a `GET` request leave the method `GET21`. -/
theorem New_extract_order_witness :
    New ([appendMethod "1", appendMethod "2"].map ExtractParam) (newRequest [])
      = ({ newRequest [] with Method := "GET21" }, none) :=
  New_extract_order [appendMethod "1", appendMethod "2"] (newRequest [])
    (by intro e he x; simp at he; rcases he with rfl | rfl <;> rfl)

/-- C2: in a pipeline `New(left..., s, right...)` of adapter steps, the steps
run from the last argument backwards. When every step of `right` succeeds,
handing the request `r'` to `s`, and `s` fails on `r'` with `err`, then `s` is
the first step to fail in execution order, the pipeline returns `err`, and the
steps of `left`, which would run after `s`, are not invoked: the result is the
same whatever steps stand in their place. -/
theorem New_short_circuit {Req : Type} (left right : List (Step Req)) (s : Step Req)
    (r r' : Req) (err : GoError)
    (hright : runAll right.reverse r = some r') (hs : s.err r' = some err) :
    (New ((left ++ s :: right).map Step.config) r).2 = some err
      ∧ ∀ left' : List (Step Req),
          New ((left' ++ s :: right).map Step.config) r
            = New ((left ++ s :: right).map Step.config) r := by
  have key : ∀ l : List (Step Req),
      New ((l ++ s :: right).map Step.config) r = (r', some err) := by
    intro l
    rw [New_eq_exec, List.reverse_append, List.reverse_cons, List.append_assoc,
      exec_append_of_runAll _ _ r r' hright]
    simp [exec, hs]
  exact ⟨by rw [key], fun l => by rw [key, key]⟩

/-- An instance of `New_short_circuit`: the extractor given last runs first and
turns the method into `GET1`, the validator before it then fails with `boom`,
and the step given first is never reached. -/
theorem New_short_circuit_witness :
    (New (([Step.validate (rejectMethod "GET1" "not run")]
        ++ Step.validate (rejectMethod "GET1" "boom")
          :: [Step.extract (appendMethod "1")]).map Step.config) (newRequest [])).2
      = some (GoError.errorString "boom")
    ∧ ∀ left' : List (Step Request),
        New ((left' ++ Step.validate (rejectMethod "GET1" "boom")
            :: [Step.extract (appendMethod "1")]).map Step.config) (newRequest [])
          = New (([Step.validate (rejectMethod "GET1" "not run")]
              ++ Step.validate (rejectMethod "GET1" "boom")
                :: [Step.extract (appendMethod "1")]).map Step.config) (newRequest []) :=
  New_short_circuit _ _ _ (newRequest []) { newRequest [] with Method := "GET1" }
    (GoError.errorString "boom") (by decide) (by decide)

/-- C3 (as stated, refuted): on the failing extractor of
`TestExtractParamFailure`, which returns a nil request with its error,
`ExtractParam` returns the request that was passed in, not the nil request the
extractor returned. -/
theorem ExtractParam_failure_counterexample :
    extractor1 (some (newRequest [])) = (none, some (GoError.errorString "Oops!"))
      ∧ ExtractParam extractor1 identity (some (newRequest []))
        = (some (newRequest []), some (GoError.errorString "Oops!"))
      ∧ ExtractParam extractor1 identity (some (newRequest []))
        ≠ (none, some (GoError.errorString "Oops!")) := by
  decide

/-- C3 (amended): if `e(r)` returns `(nr, err)` with `err` non-nil, then for
every next filter `f`, `ExtractParam(e)(f)(r)` returns that same `err` together
with `r`, the request that was passed in; the result does not depend on `f`,
which is not invoked. -/
theorem ExtractParam_failure {Req : Type} (e : Extract Req) (f : Filter Req) (r nr : Req)
    (err : GoError) (h : e r = (nr, some err)) : ExtractParam e f r = (r, some err) :=
  ExtractParam_fail e f r nr err h

/-- An instance of `ExtractParam_failure` on the extractor of
`TestExtractParamFailure`. -/
theorem ExtractParam_failure_witness :
    ExtractParam extractor1 identity (some (newRequest []))
      = (some (newRequest []), some (GoError.errorString "Oops!")) :=
  ExtractParam_failure extractor1 identity (some (newRequest [])) none
    (GoError.errorString "Oops!") rfl

/-- C4: `ValidateParam(v)(f)(r)` is `(r, err)` when `v(r)` returns a non-nil
`err` (whatever `f` is, and with the original request), and is `f(r)` when
`v(r)` returns nil. -/
theorem ValidateParam_spec {Req : Type} (v : Validate Req) (f : Filter Req) (r : Req) :
    (∀ err, v r = some err → ∀ g : Filter Req, ValidateParam v g r = (r, some err))
      ∧ (v r = none → ValidateParam v f r = f r) := by
  constructor
  · intro err h g
    simp [ValidateParam, h]
  · intro h
    simp [ValidateParam, h]

/-- C5: if `e(r)` returns `(nr, nil)`, then `ExtractParam(e)(f)(r)` is `f(nr)`:
the next filter receives the extractor's output. -/
theorem ExtractParam_success {Req : Type} (e : Extract Req) (f : Filter Req) (r nr : Req)
    (h : e r = (nr, none)) : ExtractParam e f r = f nr :=
  ExtractParam_ok e f r nr h

/-- An instance of `ExtractParam_success`: the next filter receives the request
whose method the extractor extended. -/
theorem ExtractParam_success_witness :
    ExtractParam (appendMethod "1") (ExtractParam (appendMethod "2")  identity) (newRequest [])
      = ExtractParam (appendMethod "2") identity { newRequest [] with Method := "GET1" } :=
  ExtractParam_success (appendMethod "1") _ (newRequest []) { newRequest [] with Method := "GET1" }
    (by decide)

theorem New_validators_fst {Req : Type} (vs : List (Validate Req)) (r : Req) :
    (New (vs.map ValidateParam) r).1 = r := by
  induction vs using List.reverseRecOn generalizing r with
  | nil => rfl
  | append_singleton l v ih =>
    rw [List.map_append, List.map_singleton, New_concat]
    cases h : v r with
    | none => simp [ValidateParam, h, ih]
    | some e => simp [ValidateParam, h]

/-- C6: a pipeline made of validation steps returns exactly the request it was
given, with or without an error; the built-in `PaginationValidator` and
`SortValidator` steps, alone or together, return the request and its context
unchanged. -/
theorem validators_keep_request :
    (∀ (Req : Type) (vs : List (Validate Req)) (r : Req), (New (vs.map ValidateParam) r).1 = r)
      ∧ (∀ (intSize : IntSize) (cols : List String) (r : Request),
          (New [PaginationValidator intSize] r).1 = r
            ∧ (New [SortValidator cols] r).1 = r
            ∧ (New [PaginationValidator intSize, SortValidator cols] r).1 = r
            ∧ (New [SortValidator cols, PaginationValidator intSize] r).1 = r) := by
  refine ⟨fun Req vs r => New_validators_fst vs r, fun intSize cols r => ⟨?_, ?_, ?_, ?_⟩⟩
  · exact New_validators_fst [_] r
  · exact New_validators_fst [_] r
  · exact New_validators_fst [_, _] r
  · exact New_validators_fst [_, _] r

/-! ## Properties of the parameter modules -/

theorem New_singleton {Req : Type} (c : ConfigFilter Req) : New [c] = c identity := rfl

theorem HasPrefix_dash (s : String) :
    (if HasPrefix s "-" then sliceFrom1 s else s) = columnName s := by
  rcases s with ⟨cs⟩
  cases cs with
  | nil => rfl
  | cons c cs =>
    by_cases hc : c = '-'
    · subst hc; simp [HasPrefix, List.isPrefixOf, sliceFrom1, columnName]
    · have h1 : HasPrefix ⟨c :: cs⟩ "-" = false := by
        simp [HasPrefix, List.isPrefixOf, Ne.symm hc]
      have h2 : columnName ⟨c :: cs⟩ = ⟨c :: cs⟩ := by
        unfold columnName
        split
        · rename_i cs' heq
          simp at heq
          exact absurd heq.1 hc
        · rfl
      rw [h1, h2]; rfl

/-- C9: `New(PaginationExtractor(d))(r)` returns no error, and
`GetPaginationContext` on the returned request succeeds with the `limit`
query value, or `d.Limit` when that is absent or empty, and the `offset`
query value, or `d.Offset` when that is absent or empty. -/
theorem PaginationExtractor_spec (d : Pagination) (r : Request) :
    (New [PaginationExtractor d] r).2 = none
      ∧ GetPaginationContext (New [PaginationExtractor d] r).1
        = ({ Limit := if r.URL.Query.Get "limit" ≠ "" then r.URL.Query.Get "limit" else d.Limit,
             Offset := if r.URL.Query.Get "offset" ≠ "" then r.URL.Query.Get "offset"
               else d.Offset }, none) := by
  rw [New_singleton]
  by_cases hl : r.URL.Query.Get "limit" = "" <;> by_cases ho : r.URL.Query.Get "offset" = "" <;>
    simp [PaginationExtractor, ExtractParam, identity, GetPaginationContext, Request.WithContext,
      Request.Context, WithValue, Context.Value, hl, ho]

theorem SortValidator_apply (cols : List String) (r : Request) :
    New [SortValidator cols] r
      = (r, if r.URL.Query.Get "sort" = "" then none
            else if columnName (r.URL.Query.Get "sort") ∈ cols then none
            else some (GoError.errorString
              (columnName (r.URL.Query.Get "sort") ++ " is not sortable"))) := by
  have hany : ∀ c : String, (∀ x ∈ cols, ¬ x = c) ↔ c ∉ cols := by
    intro c
    constructor
    · intro h hc; exact h c hc rfl
    · intro h x hx hxc; exact h (hxc ▸ hx)
  rw [New_singleton]
  by_cases hs : r.URL.Query.Get "sort" = ""
  · simp [SortValidator, ValidateParam, identity, hs]
  · by_cases hm : columnName (r.URL.Query.Get "sort") ∈ cols
    · simp [SortValidator, ValidateParam, identity, hs, HasPrefix_dash, hm, hany]
    · simp [SortValidator, ValidateParam, identity, hs, HasPrefix_dash, hm, hany]

/-- C10: `New(SortValidator(cols))(r)` returns an error if and only if the
`sort` query value is non-empty and its column name (the value without one
leading `-`) is not an element of `cols`; the error's message is then exactly
the column name followed by ` is not sortable`. -/
theorem SortValidator_spec (cols : List String) (r : Request) :
    ((New [SortValidator cols] r).2 ≠ none
        ↔ r.URL.Query.Get "sort" ≠ "" ∧ columnName (r.URL.Query.Get "sort") ∉ cols)
      ∧ ∀ err, (New [SortValidator cols] r).2 = some err →
          ∀ IsPrint : Char → Bool,
            err.Error IsPrint = columnName (r.URL.Query.Get "sort") ++ " is not sortable" := by
  rw [SortValidator_apply]
  by_cases hs : r.URL.Query.Get "sort" = ""
  · simp [hs]
  · by_cases hm : columnName (r.URL.Query.Get "sort") ∈ cols
    · simp [hs, hm]
    · simp only [hs, hm, if_false, not_false_eq_true, and_self, ne_eq, true_and]
      refine ⟨by simp, ?_⟩
      intro err herr IsPrint
      simp at herr
      subst herr
      rfl

/-! ## Properties of `strconv.Atoi` -/

theorem decimalValue_ge (cs : List Char) (n : Nat) : n ≤ decimalValue cs n := by
  induction cs generalizing n with
  | nil => exact Nat.le_refl _
  | cons c cs ih =>
    have h := ih (n * 10 + digitVal c)
    simp only [decimalValue]
    omega

theorem digitVal_le (c : Char) (h : isDigit c = true) : digitVal c ≤ 9 := by
  simp only [isDigit, decide_eq_true_eq] at h
  unfold digitVal
  omega

/-- The scanning loop of `ParseUint`, in closed form: a range error when the
leading digits pass `maxVal`, the value when all characters are digits, a
syntax error otherwise. -/
theorem parseUintLoop_eq (s0 : String) (maxVal : Nat)
    (hmax : maxVal = 4294967295 ∨ maxVal = 18446744073709551615)
    (cs : List Char) (n : Nat) (hn : n ≤ maxVal) :
    parseUintLoop s0 1844674407370955162 maxVal cs n
      = if decimalValue (cs.takeWhile isDigit) n > maxVal then
          (maxVal, some (rangeError "ParseUint" s0))
        else if cs.all isDigit then (decimalValue cs n, none)
        else (0, some (syntaxError "ParseUint" s0)) := by
  induction cs generalizing n with
  | nil =>
    have : ¬ n > maxVal := by omega
    simp [parseUintLoop, decimalValue, this]
  | cons c cs ih =>
    by_cases hd : isDigit c = true
    · have hd9 := digitVal_le c hd
      have hmono := decimalValue_ge (cs.takeWhile isDigit) (n * 10 + digitVal c)
      simp only [parseUintLoop, hd, if_true, List.takeWhile, decimalValue, List.all_cons,
        Bool.true_and]
      have e64 : (2 : ℕ) ^ 64 = 18446744073709551616 := by norm_num
      simp only [e64]
      by_cases hc : n ≥ 1844674407370955162
      · have : decimalValue (cs.takeWhile isDigit) (n * 10 + digitVal c) > maxVal := by omega
        simp [hc, this]
      · have h10 : n * 10 % 18446744073709551616 = n * 10 := by omega
        simp only [hc, if_false, h10]
        by_cases hov : n * 10 + digitVal c ≥ 18446744073709551616
        · have this : decimalValue (cs.takeWhile isDigit) (n * 10 + digitVal c) > maxVal := by
            omega
          have hlt : (n * 10 + digitVal c) % 18446744073709551616 < n * 10 := by omega
          simp only [hlt, true_or, if_true, this]
        · have h1 : (n * 10 + digitVal c) % 18446744073709551616 = n * 10 + digitVal c := by
            omega
          rw [h1]
          by_cases hgt : n * 10 + digitVal c > maxVal
          · have this : decimalValue (cs.takeWhile isDigit) (n * 10 + digitVal c) > maxVal := by
              omega
            simp only [hgt, or_true, if_true, this]
          · have hnlt : ¬ (n * 10 + digitVal c < n * 10) := by omega
            simp only [hnlt, hgt, or_self, if_false]
            exact ih (n * 10 + digitVal c) (by omega)
    · have : ¬ n > maxVal := by omega
      simp [parseUintLoop, hd, List.takeWhile, decimalValue, this]

theorem length_le_utf8ByteSize_go (cs : List Char) : cs.length ≤ String.utf8ByteSize.go cs := by
  induction cs with
  | nil => simp [String.utf8ByteSize.go]
  | cons c cs ih =>
    have h := Char.utf8Size_pos c
    simp only [String.utf8ByteSize.go, List.length_cons]
    omega

theorem length_le_utf8ByteSize (s : String) : s.data.length ≤ s.utf8ByteSize := by
  rcases s with ⟨cs⟩
  exact length_le_utf8ByteSize_go cs

/-- The three shapes of a string with respect to its sign. -/
theorem splitSign_cases (cs : List Char) :
    (∃ t, cs = '+' :: t ∧ splitSign cs = (false, t) ∧ hasSign cs = true)
      ∨ (∃ t, cs = '-' :: t ∧ splitSign cs = (true, t) ∧ hasSign cs = true)
      ∨ (splitSign cs = (false, cs) ∧ hasSign cs = false ∧ cs.head? ≠ some '-') := by
  cases cs with
  | nil => right; right; simp [splitSign, hasSign]
  | cons c t =>
    by_cases hp : c = '+'
    · left; subst hp; exact ⟨t, rfl, rfl, rfl⟩
    · by_cases hm : c = '-'
      · right; left; subst hm; exact ⟨t, rfl, rfl, rfl⟩
      · right; right
        refine ⟨?_, ?_, ?_⟩
        · unfold splitSign
          split
          · rename_i heq; simp at heq; exact absurd heq.1 hp
          · rename_i heq; simp at heq; exact absurd heq.1 hm
          · rfl
        · unfold hasSign
          split
          · rename_i heq; simp at heq; exact absurd heq.1 hm
          · rename_i heq; simp at heq; exact absurd heq.1 hp
          · rfl
        · simp [hm]

theorem atoiFastLoop_eq (cs : List Char) (m : Nat) :
    atoiFastLoop cs (m : Int)
      = if cs.all isDigit then some ((decimalValue cs m : Nat) : Int) else none := by
  induction cs generalizing m with
  | nil => simp [atoiFastLoop, decimalValue]
  | cons c cs ih =>
    by_cases hd : isDigit c = true
    · have h := ih (m * 10 + digitVal c)
      push_cast at h
      simp only [atoiFastLoop, hd, if_true, List.all_cons, Bool.true_and, decimalValue, h]
    · simp [atoiFastLoop, hd]

theorem decimalValue_lt (cs : List Char) (n : Nat) (h : cs.all isDigit = true) :
    decimalValue cs n + 1 ≤ (n + 1) * 10 ^ cs.length := by
  induction cs generalizing n with
  | nil => simp [decimalValue]
  | cons c cs ih =>
    simp only [List.all_cons, Bool.and_eq_true] at h
    have hd := digitVal_le c h.1
    have h1 := ih (n * 10 + digitVal c) h.2
    have h2 : (n * 10 + digitVal c + 1) * 10 ^ cs.length ≤ ((n + 1) * 10) * 10 ^ cs.length :=
      Nat.mul_le_mul_right _ (by omega)
    simp only [decimalValue, List.length_cons, pow_succ]
    calc decimalValue cs (n * 10 + digitVal c) + 1
        ≤ (n * 10 + digitVal c + 1) * 10 ^ cs.length := h1
      _ ≤ ((n + 1) * 10) * 10 ^ cs.length := h2
      _ = (n + 1) * (10 ^ cs.length * 10) := by ring

theorem takeWhile_all (cs : List Char) : (cs.takeWhile isDigit).all isDigit = true := by
  induction cs with
  | nil => rfl
  | cons c cs ih =>
    by_cases hd : isDigit c = true
    · simp [List.takeWhile, hd]
    · simp [List.takeWhile, hd]

theorem takeWhile_of_all (cs : List Char) (h : cs.all isDigit = true) :
    cs.takeWhile isDigit = cs := by
  induction cs with
  | nil => rfl
  | cons c cs ih =>
    simp only [List.all_cons, Bool.and_eq_true] at h
    simp [List.takeWhile, h.1, ih h.2]

/-- A run of at most `k` digits has a value below `10 ^ k`. -/
theorem decimalValue_lt_pow (cs : List Char) (k : Nat) (h : cs.all isDigit = true)
    (hk : cs.length ≤ k) : decimalValue cs 0 < 10 ^ k := by
  have h1 := decimalValue_lt cs 0 h
  have h2 : 10 ^ cs.length ≤ 10 ^ k := Nat.pow_le_pow_right (by norm_num) hk
  omega

theorem mk_ne_empty (cs : List Char) (h : cs ≠ []) : String.mk cs ≠ "" := by
  intro h'
  apply h
  have h2 := congrArg String.data h'
  simpa using h2

/-- The function `ParseUint` on a non-empty string, in closed form. -/
theorem ParseUint_eq (intSize : IntSize) (cs : List Char) (h : cs ≠ []) :
    ParseUint (String.mk cs) intSize.bits
      = if decimalValue (cs.takeWhile isDigit) 0 > 2 ^ intSize.bits - 1 then
          (2 ^ intSize.bits - 1, some (rangeError "ParseUint" (String.mk cs)))
        else if cs.all isDigit then (decimalValue cs 0, none)
        else (0, some (syntaxError "ParseUint" (String.mk cs))) := by
  have c1 : maxUint64 / 10 + 1 = 1844674407370955162 := by norm_num [maxUint64]
  have m32 : (2 ^ 32 % 2 ^ 64 + 2 ^ 64 - 1) % 2 ^ 64 = 4294967295 := by norm_num
  have m64 : (2 ^ 64 % 2 ^ 64 + 2 ^ 64 - 1) % 2 ^ 64 = 18446744073709551615 := by norm_num
  have e32 : 2 ^ 32 - 1 = 4294967295 := by norm_num
  have e64 : 2 ^ 64 - 1 = 18446744073709551615 := by norm_num
  cases intSize with
  | bits32 =>
    simp only [ParseUint, if_neg (mk_ne_empty cs h), c1, IntSize.bits, m32, e32]
    exact parseUintLoop_eq _ _ (Or.inl rfl) cs 0 (by omega)
  | bits64 =>
    simp only [ParseUint, if_neg (mk_ne_empty cs h), c1, IntSize.bits, m64, e64]
    exact parseUintLoop_eq _ _ (Or.inr rfl) cs 0 (by omega)

/-- The error of `ParseInt`, in closed form. -/
theorem ParseInt_err (intSize : IntSize) (s : String) :
    (ParseInt intSize s).2
      = if unsignedPart s = [] then some (syntaxError "ParseInt" s)
        else if decimalValue (leadingDigits s) 0 > 2 ^ intSize.bits - 1 then
          some (rangeError "ParseInt" s)
        else if isIntLiteral s = false then some (syntaxError "ParseInt" s)
        else if inIntRange intSize (literalValue s) then none
        else some (rangeError "ParseInt" s) := by
  by_cases hs : s = ""
  · subst hs
    rfl
  · by_cases hb : unsignedPart s = []
    · have hb' : (splitSign s.data).2 = [] := hb
      simp [ParseInt, hs, hb, hb', ParseUint, syntaxError, ErrSyntax, ErrRange]
    · have hb' : (splitSign s.data).2 ≠ [] := hb
      have hpu := ParseUint_eq intSize _ hb'
      simp only [ParseInt, hs, if_false, hb]
      by_cases hr : decimalValue (leadingDigits s) 0 > 2 ^ intSize.bits - 1
      · have hr' : decimalValue ((splitSign s.data).2.takeWhile isDigit) 0
            > 2 ^ intSize.bits - 1 := hr
        rw [hpu]
        simp only [hr, hr', if_true]
        cases intSize <;> cases hneg : (splitSign s.data).1 <;>
          simp [rangeError, ErrRange, IntSize.bits]
      · have hr' : ¬ decimalValue ((splitSign s.data).2.takeWhile isDigit) 0
            > 2 ^ intSize.bits - 1 := hr
        rw [hpu]
        simp only [hr, hr', if_false]
        by_cases hall : (splitSign s.data).2.all isDigit = true
        · have hlit : isIntLiteral s = true := by
            simp [isIntLiteral, unsignedPart, hb', hall]
          have htw : leadingDigits s = (splitSign s.data).2 := takeWhile_of_all _ hall
          rw [htw] at hr
          simp only [hall, hlit, if_true]
          cases intSize <;> cases hneg : (splitSign s.data).1 <;>
            simp [inIntRange, literalValue, unsignedPart, hneg, IntSize.bits] at hr ⊢ <;>
            split_ifs <;> first | rfl | (exfalso; omega)
        · have hlit : isIntLiteral s = false := by
            simp [isIntLiteral, unsignedPart, hall]
          simp [hall, hlit, syntaxError, ErrSyntax, ErrRange]

theorem unsignedPart_length_le (s : String) : (unsignedPart s).length ≤ s.data.length := by
  unfold unsignedPart
  rcases splitSign_cases s.data with ⟨t, ht, hsp, _⟩ | ⟨t, ht, hsp, _⟩ | ⟨hsp, _, _⟩
  · rw [hsp, ht]; simp
  · rw [hsp, ht]; simp
  · rw [hsp]

theorem atoi_body_eq (s : String) :
    (if hasSign s.data = true then s.data.drop 1 else s.data) = unsignedPart s := by
  unfold unsignedPart
  rcases splitSign_cases s.data with ⟨t, ht, hsp, hh⟩ | ⟨t, ht, hsp, hh⟩ | ⟨hsp, hh, _⟩
  · rw [hsp, hh, ht]; rfl
  · rw [hsp, hh, ht]; rfl
  · rw [hsp, hh]; rfl

theorem unsignedPart_of_not_hasSign (s : String) (h : hasSign s.data = false) :
    unsignedPart s = s.data := by
  unfold unsignedPart
  rcases splitSign_cases s.data with ⟨t, ht, hsp, hh⟩ | ⟨t, ht, hsp, hh⟩ | ⟨hsp, hh, _⟩
  · rw [hh] at h; exact absurd h (by decide)
  · rw [hh] at h; exact absurd h (by decide)
  · rw [hsp]

/-- The error of the fast path of `Atoi`: a syntax error unless the string is
an integer literal. -/
theorem Atoi_fast_err (s : String) (hpos : 0 < s.utf8ByteSize) :
    (if hasSign s.data = true ∧ (unsignedPart s).length < 1 then
        ((0 : Int), some (syntaxError "Atoi" s))
      else
        match atoiFastLoop (unsignedPart s) 0 with
        | none => (0, some (syntaxError "Atoi" s))
        | some n => if s.data.head? = some '-' then (-n, none) else (n, none)).2
      = if isIntLiteral s then none else some (syntaxError "Atoi" s) := by
  have hloop := atoiFastLoop_eq (unsignedPart s) 0
  simp only [Nat.cast_zero] at hloop
  by_cases hb : unsignedPart s = []
  · have hs : hasSign s.data = true := by
      by_contra hns
      have hns' : hasSign s.data = false := by simpa using hns
      have hd := unsignedPart_of_not_hasSign s hns'
      rw [hb] at hd
      rcases s with ⟨cs⟩
      simp only at hd
      subst hd
      simp [String.utf8ByteSize, String.utf8ByteSize.go] at hpos
    simp [hb, hs, isIntLiteral]
  · have hl : ¬ (unsignedPart s).length < 1 := by
      cases hu : unsignedPart s with
      | nil => exact absurd hu hb
      | cons c t => simp
    by_cases hall : (unsignedPart s).all isDigit = true
    · simp only [hl, and_false, if_false, hloop, hall, if_true, isIntLiteral, hb, ne_eq,
        not_false_eq_true, decide_True, Bool.and_self]
      split_ifs <;> rfl
    · simp only [hl, and_false, if_false, hloop, hall, isIntLiteral, hb, ne_eq,
        not_false_eq_true, decide_True, Bool.true_and]
      simp

/-- On a string short enough for the fast path of `Atoi`, every run of digits
has a value that fits an `int`. -/
theorem short_fits (intSize : IntSize) (s : String) (cs : List Char)
    (hfast : (intSize.bits = 32 ∧ 0 < s.utf8ByteSize ∧ s.utf8ByteSize < 10)
      ∨ (intSize.bits = 64 ∧ 0 < s.utf8ByteSize ∧ s.utf8ByteSize < 19))
    (hall : cs.all isDigit = true) (hlen : cs.length ≤ (unsignedPart s).length) :
    decimalValue cs 0 < 2 ^ (intSize.bits - 1) := by
  have h1 := length_le_utf8ByteSize s
  have h2 := unsignedPart_length_le s
  cases intSize with
  | bits32 =>
    simp only [IntSize.bits] at hfast ⊢
    have h3 := decimalValue_lt_pow cs 9 hall (by omega)
    norm_num at h3 ⊢
    omega
  | bits64 =>
    simp only [IntSize.bits] at hfast ⊢
    have h3 := decimalValue_lt_pow cs 18 hall (by omega)
    norm_num at h3 ⊢
    omega

/-- The error of `Atoi`, in closed form: a syntax error when no character
follows the optional sign; a range error when the leading digits pass
`2^bits - 1`; a syntax error when a character is no digit; a range error when
the literal's value is no `int`; no error otherwise. -/
theorem Atoi_err (intSize : IntSize) (s : String) :
    (Atoi intSize s).2
      = if unsignedPart s = [] then some (syntaxError "Atoi" s)
        else if decimalValue (leadingDigits s) 0 > 2 ^ intSize.bits - 1 then
          some (rangeError "Atoi" s)
        else if isIntLiteral s = false then some (syntaxError "Atoi" s)
        else if inIntRange intSize (literalValue s) then none
        else some (rangeError "Atoi" s) := by
  by_cases hfast : (intSize.bits = 32 ∧ 0 < s.utf8ByteSize ∧ s.utf8ByteSize < 10)
      ∨ (intSize.bits = 64 ∧ 0 < s.utf8ByteSize ∧ s.utf8ByteSize < 19)
  · have hpos : 0 < s.utf8ByteSize := by
      rcases hfast with h | h <;> exact h.2.1
    have hf := Atoi_fast_err s hpos
    simp only [Atoi, hfast, if_true, atoi_body_eq]
    rw [hf]
    have hlead := short_fits intSize s (leadingDigits s) hfast (takeWhile_all _)
      (List.takeWhile_sublist _).length_le
    have hlead' : ¬ decimalValue (leadingDigits s) 0 > 2 ^ intSize.bits - 1 := by
      cases intSize <;> simp only [IntSize.bits] at hlead ⊢ <;> norm_num at hlead ⊢ <;> omega
    by_cases hb : unsignedPart s = []
    · simp [hb, isIntLiteral]
    · by_cases hlit : isIntLiteral s = true
      · have hall : (unsignedPart s).all isDigit = true := by
          simp only [isIntLiteral, Bool.and_eq_true] at hlit
          exact hlit.2
        have hv := short_fits intSize s (unsignedPart s) hfast hall (Nat.le_refl _)
        have hin : inIntRange intSize (literalValue s) := by
          unfold inIntRange literalValue
          cases intSize <;> simp only [IntSize.bits] at hv ⊢ <;> norm_num at hv ⊢ <;>
            split_ifs <;> omega
        simp [hb, hlead', hlit, hin]
      · simp [hb, hlead', hlit]
  · have hp := ParseInt_err intSize s
    simp only [Atoi, hfast, if_false]
    rcases hpi : ParseInt intSize s with ⟨v, e⟩
    rw [hpi] at hp
    simp only at hp
    subst hp
    split_ifs <;> simp [syntaxError, rangeError]

/-- `Atoi` succeeds exactly on the integer literals whose value is an `int`. -/
theorem Atoi_ok_iff (intSize : IntSize) (s : String) :
    (Atoi intSize s).2 = none
      ↔ isIntLiteral s = true ∧ inIntRange intSize (literalValue s) := by
  rw [Atoi_err]
  constructor
  · intro h
    split_ifs at h with h1 h2 h3 h4
    exact ⟨by simpa using h3, h4⟩
  · rintro ⟨hlit, hin⟩
    have hlit' := hlit
    simp only [isIntLiteral, Bool.and_eq_true, decide_eq_true_eq] at hlit'
    have htw : leadingDigits s = unsignedPart s := takeWhile_of_all _ hlit'.2
    have hlead : ¬ decimalValue (leadingDigits s) 0 > 2 ^ intSize.bits - 1 := by
      rw [htw]
      unfold inIntRange literalValue at hin
      cases intSize <;> simp only [IntSize.bits] at hin ⊢ <;> norm_num at hin ⊢ <;>
        split_ifs at hin <;> omega
    simp [hlit'.1, hlead, hlit, hin]

theorem PaginationValidator_apply (intSize : IntSize) (r : Request) :
    New [PaginationValidator intSize] r
      = (r, if r.URL.Query.Get "limit" ≠ "" ∧ (Atoi intSize (r.URL.Query.Get "limit")).2 ≠ none
              then (Atoi intSize (r.URL.Query.Get "limit")).2
            else if r.URL.Query.Get "offset" ≠ ""
                ∧ (Atoi intSize (r.URL.Query.Get "offset")).2 ≠ none
              then (Atoi intSize (r.URL.Query.Get "offset")).2
            else none) := by
  rw [New_singleton]
  simp only [PaginationValidator, ValidateParam, identity]
  split <;> rename_i h <;> rw [h]

/-- C7 (as stated, refuted): `9223372036854775808` (and, where `int` has 32
bits, `2147483648`) is a base-10 integer literal, yet the pagination validator
rejects it as out of range. -/
theorem PaginationValidator_magnitude_counterexample :
    isIntLiteral "9223372036854775808" = true
      ∧ (New [PaginationValidator IntSize.bits64]
          (newRequest [("limit", ["9223372036854775808"])])).2
        = some (rangeError "Atoi" "9223372036854775808")
      ∧ isIntLiteral "2147483648" = true
      ∧ (New [PaginationValidator IntSize.bits32] (newRequest [("offset", ["2147483648"])])).2
        = some (rangeError "Atoi" "2147483648") := by
  decide

/-- C7 (amended): `New(PaginationValidator())(r)` returns no error if and only
if each of the query values `limit` and `offset` is either absent/empty or a
base-10 integer literal (optional sign followed by decimal digits) whose value
is an `int`, that is, lies between `-2^(bits-1)` and `2^(bits-1) - 1` for the
platform's `int` size. -/
theorem PaginationValidator_ok_iff (intSize : IntSize) (r : Request) :
    (New [PaginationValidator intSize] r).2 = none
      ↔ (r.URL.Query.Get "limit" = ""
          ∨ (isIntLiteral (r.URL.Query.Get "limit") = true
            ∧ inIntRange intSize (literalValue (r.URL.Query.Get "limit"))))
        ∧ (r.URL.Query.Get "offset" = ""
          ∨ (isIntLiteral (r.URL.Query.Get "offset") = true
            ∧ inIntRange intSize (literalValue (r.URL.Query.Get "offset")))) := by
  rw [PaginationValidator_apply, ← Atoi_ok_iff, ← Atoi_ok_iff]
  by_cases hl : r.URL.Query.Get "limit" = "" <;>
    by_cases hal : (Atoi intSize (r.URL.Query.Get "limit")).2 = none <;>
    by_cases ho : r.URL.Query.Get "offset" = "" <;>
    by_cases hao : (Atoi intSize (r.URL.Query.Get "offset")).2 = none <;>
    simp [hl, hal, ho, hao]

/-- `Atoi` reports a syntax error on a non-literal whose leading digits do not
pass `2^bits - 1`. -/
theorem Atoi_syntax (intSize : IntSize) (s : String) (hbad : isIntLiteral s = false)
    (hlead : decimalValue (leadingDigits s) 0 ≤ 2 ^ intSize.bits - 1) :
    (Atoi intSize s).2 = some (syntaxError "Atoi" s) := by
  rw [Atoi_err]
  have hlead' : ¬ decimalValue (leadingDigits s) 0 > 2 ^ intSize.bits - 1 := by omega
  by_cases hb : unsignedPart s = []
  · simp [hb]
  · simp [hb, hlead', hbad]

theorem flatMap_plain (IsPrint : Char → Bool) (cs : List Char)
    (h : ∀ c ∈ cs, isPlain IsPrint c = true) :
    cs.flatMap (appendEscapedRune IsPrint) = cs := by
  induction cs with
  | nil => rfl
  | cons c cs ih =>
    have hc := h c (by simp)
    simp only [isPlain, Bool.and_eq_true, decide_eq_true_eq] at hc
    have h1 : appendEscapedRune IsPrint c = [c] := by
      simp [appendEscapedRune, hc.1.1, hc.1.2, hc.2]
    rw [List.flatMap_cons, h1, ih (fun x hx => h x (by simp [hx]))]
    rfl

/-- On a string of plain characters `Quote` only adds the two quotes. -/
theorem Quote_plain (IsPrint : Char → Bool) (s : String)
    (h : ∀ c ∈ s.data, isPlain IsPrint c = true) :
    Quote IsPrint s = "\"" ++ s ++ "\"" := by
  unfold Quote
  rw [flatMap_plain IsPrint s.data h]
  apply String.ext
  simp

theorem syntaxError_message (IsPrint : Char → Bool) (s : String) :
    (syntaxError "Atoi" s).Error IsPrint
      = "strconv.Atoi: parsing " ++ Quote IsPrint s ++ ": invalid syntax" := by
  simp only [syntaxError, ErrSyntax, GoError.Error]
  apply String.ext
  simp [String.data_append]

/-- C8 (as stated, refuted): the value `99999999999999999999x` is no integer
literal, yet the error's message ends in `value out of range`, since the digits
pass the largest `uint64` before the scan reaches the `x`; and the message
quotes the value with `strconv.Quote`, so the value `a"b` appears in it as
`a\"b`, not raw. -/
theorem PaginationValidator_syntax_counterexample :
    isIntLiteral "99999999999999999999x" = false
      ∧ (New [PaginationValidator IntSize.bits64]
          (newRequest [("limit", ["99999999999999999999x"])])).2
        = some (rangeError "Atoi" "99999999999999999999x")
      ∧ (rangeError "Atoi" "99999999999999999999x").Error IsPrintASCII
        = "strconv.Atoi: parsing \"99999999999999999999x\": value out of range"
      ∧ (rangeError "Atoi" "99999999999999999999x").Error IsPrintASCII
        ≠ "strconv.Atoi: parsing \"99999999999999999999x\": invalid syntax"
      ∧ (New [PaginationValidator IntSize.bits64] (newRequest [("limit", ["a\"b"])])).2
        = some (syntaxError "Atoi" "a\"b")
      ∧ (syntaxError "Atoi" "a\"b").Error IsPrintASCII
        = "strconv.Atoi: parsing \"a\\\"b\": invalid syntax"
      ∧ (syntaxError "Atoi" "a\"b").Error IsPrintASCII
        ≠ "strconv.Atoi: parsing \"a\"b\": invalid syntax" := by
  decide

/-- C8 (amended): let `value` be the `limit` query value, or the `offset` query
value when `limit` is empty or an integer literal whose value is an `int`. If
`value` is non-empty, is no base-10 integer literal, and the decimal digits it
starts with (after an optional sign) have a value of at most `2^bits - 1`, then
`New(PaginationValidator())(r)` returns the error
`NumError{Func: "Atoi", Num: value, Err: ErrSyntax}`, whose message is
`strconv.Atoi: parsing ` followed by `strconv.Quote(value)` and by
`: invalid syntax`; this is `strconv.Atoi: parsing "<value>": invalid syntax`
with the raw value when the value consists of printable characters other than
the double quote and the backslash. When both `limit` and `offset` are
malformed the reported value is that of `limit`. -/
theorem PaginationValidator_syntax_error (intSize : IntSize) (r : Request) (value : String)
    (hwhich : value = r.URL.Query.Get "limit"
      ∨ ((r.URL.Query.Get "limit" = ""
          ∨ (isIntLiteral (r.URL.Query.Get "limit") = true
            ∧ inIntRange intSize (literalValue (r.URL.Query.Get "limit"))))
        ∧ value = r.URL.Query.Get "offset"))
    (hne : value ≠ "") (hbad : isIntLiteral value = false)
    (hlead : decimalValue (leadingDigits value) 0 ≤ 2 ^ intSize.bits - 1) :
    (New [PaginationValidator intSize] r).2 = some (syntaxError "Atoi" value)
      ∧ ∀ IsPrint : Char → Bool,
          (syntaxError "Atoi" value).Error IsPrint
              = "strconv.Atoi: parsing " ++ Quote IsPrint value ++ ": invalid syntax"
            ∧ ((∀ c ∈ value.data, isPlain IsPrint c = true) →
                (syntaxError "Atoi" value).Error IsPrint
                  = "strconv.Atoi: parsing \"" ++ value ++ "\": invalid syntax") := by
  have herr := Atoi_syntax intSize value hbad hlead
  refine ⟨?_, fun IsPrint => ⟨syntaxError_message IsPrint value, fun hplain => ?_⟩⟩
  · rw [PaginationValidator_apply]
    rcases hwhich with hl | ⟨hl, ho⟩
    · subst hl
      simp [hne, herr]
    · subst ho
      have hlim : ¬ (r.URL.Query.Get "limit" ≠ ""
          ∧ (Atoi intSize (r.URL.Query.Get "limit")).2 ≠ none) := by
        rintro ⟨h1, h2⟩
        rcases hl with h | h
        · exact h1 h
        · exact h2 ((Atoi_ok_iff intSize _).mpr h)
      simp [hlim, hne, herr]
  · rw [syntaxError_message, Quote_plain IsPrint value hplain]
    apply String.ext
    simp [String.data_append]

/-- An instance of `PaginationValidator_syntax_error` on the request
`/?limit=s200` of `TestPaginationValidator`. -/
theorem PaginationValidator_syntax_error_witness :
    (New [PaginationValidator IntSize.bits64] (newRequest [("limit", ["s200"])])).2
        = some (syntaxError "Atoi" "s200")
      ∧ ∀ IsPrint : Char → Bool,
          (syntaxError "Atoi" "s200").Error IsPrint
              = "strconv.Atoi: parsing " ++ Quote IsPrint "s200" ++ ": invalid syntax"
            ∧ ((∀ c ∈ "s200".data, isPlain IsPrint c = true) →
                (syntaxError "Atoi" "s200").Error IsPrint
                  = "strconv.Atoi: parsing \"" ++ "s200" ++ "\": invalid syntax") :=
  PaginationValidator_syntax_error IntSize.bits64 (newRequest [("limit", ["s200"])]) "s200"
    (Or.inl (by decide)) (by decide) (by decide) (by decide)

/-! ## Properties of the extractors and the context accessors -/

theorem PaginationExtractor_apply (d : Pagination) (r : Request) :
    New [PaginationExtractor d] r
      = (r.WithContext (WithValue r.Context ctxKeyPagination
          (Any.pagination (paginationOfQuery d r.URL.Query))), none) := by
  rw [New_singleton]
  by_cases hl : r.URL.Query.Get "limit" = "" <;> by_cases ho : r.URL.Query.Get "offset" = "" <;>
    simp [PaginationExtractor, ExtractParam, identity, paginationOfQuery, hl, ho]

theorem sortOfQuery_eq (d : SortSpec) (s : String) :
    (if s ≠ "" then
        (if HasPrefix s "-" then ({ Column := sliceFrom1 s, Direction := "DESC" } : SortSpec)
          else { Column := s, Direction := "ASC" })
      else { Column := d.Column, Direction := d.Direction }) = sortOfQuery d s := by
  by_cases hs : s = ""
  · simp [hs, sortOfQuery]
  · rcases s with ⟨cs⟩
    cases cs with
    | nil => exact absurd rfl hs
    | cons c cs =>
      by_cases hc : c = '-'
      · subst hc
        simp [hs, sortOfQuery, HasPrefix, List.isPrefixOf, sliceFrom1]
      · have h1 : HasPrefix ⟨c :: cs⟩ "-" = false := by
          simp [HasPrefix, List.isPrefixOf, Ne.symm hc]
        simp only [ne_eq, hs, not_false_eq_true, if_true, h1, sortOfQuery, if_false,
          Bool.false_eq_true]
        split
        · rename_i rest heq
          simp at heq
          exact absurd heq.1 hc
        · rfl

theorem SortExtractor_apply (d : SortSpec) (r : Request) :
    New [SortExtractor d] r
      = (r.WithContext (WithValue r.Context ctxKeySort
          (Any.sort (sortOfQuery d (r.URL.Query.Get "sort")))), none) := by
  rw [New_singleton]
  simp only [SortExtractor, ExtractParam, identity, sortOfQuery_eq]

theorem GetPaginationContext_WithValue_pagination (r : Request) (p : Pagination) :
    GetPaginationContext (r.WithContext (WithValue r.Context ctxKeyPagination (Any.pagination p)))
      = (p, none) := by
  simp [GetPaginationContext, Request.WithContext, Request.Context, WithValue, Context.Value]

theorem GetSortContext_WithValue_sort (r : Request) (v : SortSpec) :
    GetSortContext (r.WithContext (WithValue r.Context ctxKeySort (Any.sort v))) = (v, none) := by
  simp [GetSortContext, Request.WithContext, Request.Context, WithValue, Context.Value]

theorem GetPaginationContext_WithValue_sort (r : Request) (v : SortSpec) :
    GetPaginationContext (r.WithContext (WithValue r.Context ctxKeySort (Any.sort v)))
      = GetPaginationContext r := by
  simp [GetPaginationContext, Request.WithContext, Request.Context, WithValue, Context.Value,
    ctxKeySort, ctxKeyPagination]

theorem GetSortContext_WithValue_pagination (r : Request) (p : Pagination) :
    GetSortContext (r.WithContext (WithValue r.Context ctxKeyPagination (Any.pagination p)))
      = GetSortContext r := by
  simp [GetSortContext, Request.WithContext, Request.Context, WithValue, Context.Value,
    ctxKeySort, ctxKeyPagination]

theorem WithContext_URL (r : Request) (c : Context) : (r.WithContext c).URL = r.URL := rfl

/-- C11: `New(SortExtractor(d))(r)` returns no error, and `GetSortContext` on the
returned request succeeds with `d` itself when the `sort` query value is absent
or empty, with the rest of the value and `DESC` when the value is `-` followed
by that rest, and with the value and `ASC` otherwise. -/
theorem SortExtractor_spec (d : SortSpec) (r : Request) :
    (New [SortExtractor d] r).2 = none
      ∧ GetSortContext (New [SortExtractor d] r).1
        = (if r.URL.Query.Get "sort" = "" then d
            else
              match (r.URL.Query.Get "sort").data with
              | '-' :: rest => { Column := String.mk rest, Direction := "DESC" }
              | _ => { Column := r.URL.Query.Get "sort", Direction := "ASC" }, none) := by
  rw [SortExtractor_apply]
  exact ⟨rfl, GetSortContext_WithValue_sort _ _⟩

theorem Value_none_of_no_entry (c : Context) (key : CtxKey)
    (h : ∀ e ∈ c.entries, e.1 ≠ key) : c.Value key = none := by
  have hf : c.entries.find? (fun e => decide (e.1 = key)) = none := by
    rw [List.find?_eq_none]
    intro e he
    simpa using h e he
  simp [Context.Value, hf]

/-- C12: `GetPaginationContext(r)` returns an error, with the zero
`Pagination`, if and only if the context of `r` holds no `Pagination` value
under the pagination key, and otherwise returns the stored `Pagination` with no
error; likewise `GetSortContext` for the sort key. In particular the accessor
returns an error on a request whose context has no entry under the key, as is
the case for a request that did not pass through the extractor. -/
theorem accessors_spec (r : Request) :
    (((GetPaginationContext r).2 ≠ none
          ↔ ¬ ∃ p, r.Context.Value ctxKeyPagination = some (Any.pagination p))
        ∧ ((GetPaginationContext r).2 ≠ none
          → (GetPaginationContext r).1 = { Limit := "", Offset := "" })
        ∧ (∀ p, r.Context.Value ctxKeyPagination = some (Any.pagination p)
          → GetPaginationContext r = (p, none))
        ∧ ((∀ e ∈ r.Context.entries, e.1 ≠ ctxKeyPagination)
          → (GetPaginationContext r).2 ≠ none))
      ∧ (((GetSortContext r).2 ≠ none
          ↔ ¬ ∃ v, r.Context.Value ctxKeySort = some (Any.sort v))
        ∧ ((GetSortContext r).2 ≠ none
          → (GetSortContext r).1 = { Column := "", Direction := "" })
        ∧ (∀ v, r.Context.Value ctxKeySort = some (Any.sort v)
          → GetSortContext r = (v, none))
        ∧ ((∀ e ∈ r.Context.entries, e.1 ≠ ctxKeySort)
          → (GetSortContext r).2 ≠ none)) := by
  constructor
  · refine ⟨?_, ?_, ?_, ?_⟩
    · unfold GetPaginationContext
      split
      · rename_i v hv; simp [hv]
      · rename_i hno
        simp only [ne_eq, reduceCtorEq, not_false_eq_true, true_iff]
        rintro ⟨p, hp⟩
        exact hno p hp
    · unfold GetPaginationContext
      split
      · simp
      · simp
    · intro p hp
      simp [GetPaginationContext, hp]
    · intro h
      simp [GetPaginationContext, Value_none_of_no_entry _ _ h]
  · refine ⟨?_, ?_, ?_, ?_⟩
    · unfold GetSortContext
      split
      · rename_i v hv; simp [hv]
      · rename_i hno
        simp only [ne_eq, reduceCtorEq, not_false_eq_true, true_iff]
        rintro ⟨p, hp⟩
        exact hno p hp
    · unfold GetSortContext
      split
      · simp
      · simp
    · intro p hp
      simp [GetSortContext, hp]
    · intro h
      simp [GetSortContext, Value_none_of_no_entry _ _ h]

/-- C13 (the code at the failing inputs): the assertion `err.(ECtxNotExist)`
holds on the accessors' not-found errors, as the tests check, and it also holds
on the errors of `SortValidator`, of `PaginationValidator` and of a failing
custom extract step, on which the claim says it fails. -/
theorem ECtxNotExist_holds_on_other_errors :
    isECtxNotExist (GetPaginationContext (newRequest [("sort", ["-name"])])).2 = true
      ∧ isECtxNotExist (GetSortContext (newRequest [("limit", ["10"])])).2 = true
      ∧ (New [SortValidator ["name", "role"]] (newRequest [("sort", ["rank"])])).2
        = some (GoError.errorString "rank is not sortable")
      ∧ isECtxNotExist (New [SortValidator ["name", "role"]] (newRequest [("sort", ["rank"])])).2
        = true
      ∧ isECtxNotExist
          (New [PaginationValidator IntSize.bits64] (newRequest [("limit", ["s200"])])).2 = true
      ∧ isECtxNotExist (New [ExtractParam extractor1] (some (newRequest []))).2 = true := by
  decide

/-- C14: applying the pagination extraction pipeline to the request it produced
attaches the same `Pagination` as the first application, and likewise for the
sort extraction pipeline and `GetSortContext`. -/
theorem extraction_idempotent (d : Pagination) (s : SortSpec) (r : Request) :
    GetPaginationContext (New [PaginationExtractor d] (New [PaginationExtractor d] r).1).1
        = GetPaginationContext (New [PaginationExtractor d] r).1
      ∧ GetSortContext (New [SortExtractor s] (New [SortExtractor s] r).1).1
        = GetSortContext (New [SortExtractor s] r).1 := by
  constructor
  · rw [PaginationExtractor_apply, PaginationExtractor_apply,
      GetPaginationContext_WithValue_pagination, GetPaginationContext_WithValue_pagination,
      WithContext_URL]
  · rw [SortExtractor_apply, SortExtractor_apply, GetSortContext_WithValue_sort,
      GetSortContext_WithValue_sort, WithContext_URL]

/-- C15 (as stated, refuted): with the default `Sort{Column: "name", Direction:
"up"}` and a request without a `sort` query value, the attached `Sort` has the
direction `up`. -/
theorem SortExtractor_direction_counterexample :
    (GetSortContext (New [SortExtractor { Column := "name", Direction := "up" }]
        (newRequest [])).1).1.Direction = "up"
      ∧ ¬ ((GetSortContext (New [SortExtractor { Column := "name", Direction := "up" }]
            (newRequest [])).1).1.Direction = "ASC"
          ∨ (GetSortContext (New [SortExtractor { Column := "name", Direction := "up" }]
            (newRequest [])).1).1.Direction = "DESC") := by
  decide

/-- C15 (amended): when the `sort` query value is non-empty, or the direction of
the default `Sort` is `ASC` or `DESC`, the `Sort` that `SortExtractor(d)`
attaches has the direction `ASC` or `DESC`; and for every default, whatever its
direction, when the `sort` query value is absent or empty the attached
direction is the default's, unchecked. -/
theorem SortExtractor_direction (d : SortSpec) (r : Request) :
    ((r.URL.Query.Get "sort" ≠ "" ∨ d.Direction = "ASC" ∨ d.Direction = "DESC")
        → ((GetSortContext (New [SortExtractor d] r).1).1.Direction = "ASC"
          ∨ (GetSortContext (New [SortExtractor d] r).1).1.Direction = "DESC"))
      ∧ (r.URL.Query.Get "sort" = ""
        → (GetSortContext (New [SortExtractor d] r).1).1.Direction = d.Direction) := by
  rw [SortExtractor_apply, GetSortContext_WithValue_sort]
  by_cases hs : r.URL.Query.Get "sort" = ""
  · refine ⟨fun h => ?_, fun _ => by simp [sortOfQuery, hs]⟩
    rcases h with h | h
    · exact absurd hs h
    · simp [sortOfQuery, hs, h]
  · refine ⟨fun _ => ?_, fun h' => absurd h' hs⟩
    simp only [sortOfQuery, hs, if_false]
    split <;> simp

/-- Instances of `SortExtractor_direction` with a default whose direction is
neither `ASC` nor `DESC`: on the request `/?sort=-user` of `TestSortExtractor`
the attached direction is `ASC` or `DESC`, and on the request `/`, which has no
`sort` value, it is the default's `up`. -/
theorem SortExtractor_direction_witness :
    ((GetSortContext (New [SortExtractor { Column := "name", Direction := "up" }]
          (newRequest [("sort", ["-user"])])).1).1.Direction = "ASC"
        ∨ (GetSortContext (New [SortExtractor { Column := "name", Direction := "up" }]
          (newRequest [("sort", ["-user"])])).1).1.Direction = "DESC")
      ∧ (GetSortContext (New [SortExtractor { Column := "name", Direction := "up" }]
          (newRequest [])).1).1.Direction = "up" :=
  ⟨(SortExtractor_direction { Column := "name", Direction := "up" }
      (newRequest [("sort", ["-user"])])).1 (Or.inl (by decide)),
    (SortExtractor_direction { Column := "name", Direction := "up" } (newRequest [])).2
      (by decide)⟩

theorem ChoiceValidator_apply (paramName : String) (allowed : List String) (r : Request) :
    New [ChoiceValidator paramName allowed] r
      = (r, if r.URL.Query.Get paramName ≠ "" ∧ r.URL.Query.Get paramName ∉ allowed then
              some (GoError.errorString
                (r.URL.Query.Get paramName ++ " is an invalid option for " ++ paramName))
            else none) := by
  rw [New_singleton]
  simp only [ChoiceValidator, ValidateParam, identity]
  split <;> rename_i h <;> rw [h]

/-- C16: `New(ChoiceValidator(p, A))(r)` returns an error if and only if the
query value of `p` is present, non-empty and not a member of `A`; the error's
message is then exactly the value followed by ` is an invalid option for ` and
`p`. An absent or empty value is accepted. -/
theorem ChoiceValidator_spec (paramName : String) (allowed : List String) (r : Request) :
    ((New [ChoiceValidator paramName allowed] r).2 ≠ none
        ↔ r.URL.Query.Get paramName ≠ "" ∧ r.URL.Query.Get paramName ∉ allowed)
      ∧ (∀ err, (New [ChoiceValidator paramName allowed] r).2 = some err →
          ∀ IsPrint : Char → Bool,
            err.Error IsPrint
              = r.URL.Query.Get paramName ++ " is an invalid option for " ++ paramName)
      ∧ (r.URL.Query.Get paramName = "" → (New [ChoiceValidator paramName allowed] r).2 = none) := by
  rw [ChoiceValidator_apply]
  by_cases hc : r.URL.Query.Get paramName ≠ "" ∧ r.URL.Query.Get paramName ∉ allowed
  · rw [if_pos hc]
    refine ⟨⟨fun _ => hc, fun _ => by simp⟩, ?_, fun h => absurd h hc.1⟩
    intro err herr IsPrint
    simp only [Option.some.injEq] at herr
    subst herr
    rfl
  · rw [if_neg hc]
    refine ⟨⟨fun h => absurd rfl h, fun h => absurd h hc⟩, ?_, fun _ => rfl⟩
    intro err herr
    simp at herr

/-- C17: `New(s1, ..., sn)` is the left fold `sn(...(s2(s1(identity)))...)`: the
pipeline of no steps returns its request unchanged with no error, and adding a
step at the end of the argument list wraps it around the pipeline of the steps
before it. -/
theorem New_is_left_fold {Req : Type} (cfgs : List (ConfigFilter Req)) :
    New cfgs = cfgs.reverse.foldr (fun step result => step result) identity
      ∧ (∀ r : Req, New ([] : List (ConfigFilter Req)) r = (r, none))
      ∧ ∀ step : ConfigFilter Req, New (cfgs ++ [step]) = step (New cfgs) := by
  refine ⟨?_, fun r => rfl, fun step => New_concat cfgs step⟩
  rw [List.foldr_reverse]
  rfl

theorem runAll_eq_foldl {Req : Type} (l : List (Step Req)) (r r' : Req)
    (h : runAll l r = some r') : r' = l.foldl (fun acc s => s.out acc) r := by
  induction l generalizing r with
  | nil => simp [runAll] at h; exact h.symm
  | cons s l ih =>
    cases hs : s.err r with
    | none => simp [runAll, hs] at h; simpa using ih _ h
    | some e => simp [runAll, hs] at h

/-- C18: in a pipeline `New(left..., s, right...)` of adapter steps, when every
step of `right` (the steps that run before `s`) succeeds, handing the request
`r'` to `s`, and `s` fails on `r'`, the request returned alongside the error is
`r'`: the outputs of the steps that ran before `s`, applied to `r` in execution
order (a validator hands on its input, an extractor its output). -/
theorem New_failure_request {Req : Type} (left right : List (Step Req)) (s : Step Req)
    (r r' : Req) (err : GoError)
    (hright : runAll right.reverse r = some r') (hs : s.err r' = some err) :
    (New ((left ++ s :: right).map Step.config) r).1 = r'
      ∧ r' = right.foldr (fun step acc => step.out acc) r := by
  constructor
  · rw [New_eq_exec, List.reverse_append, List.reverse_cons, List.append_assoc,
      exec_append_of_runAll _ _ r r' hright]
    simp [exec, hs]
  · have h := runAll_eq_foldl _ r r' hright
    rw [List.foldl_reverse] at h
    exact h

/-- An instance of `New_failure_request`: the extractor given last turns the
method into `GET1`, the validator before it fails, and the request returned
with the error has the method `GET1`. -/
theorem New_failure_request_witness :
    (New (([Step.validate (rejectMethod "GET1" "not run")]
        ++ Step.validate (rejectMethod "GET1" "boom")
          :: [Step.extract (appendMethod "1")]).map Step.config) (newRequest [])).1
        = { newRequest [] with Method := "GET1" }
      ∧ { newRequest [] with Method := "GET1" }
        = [Step.extract (appendMethod "1")].foldr (fun step acc => step.out acc) (newRequest []) :=
  New_failure_request _ _ _ (newRequest []) { newRequest [] with Method := "GET1" }
    (GoError.errorString "boom") (by decide) (by decide)

theorem sortOfQuery_Column (d : SortSpec) (s : String) (hs : s ≠ "") :
    (sortOfQuery d s).Column = columnName s := by
  simp only [sortOfQuery, hs, if_false, columnName]
  split <;> rfl

/-- C19: when the `sort` query value is non-empty and `New(SortValidator(cols))`
accepts the request, the column of the `Sort` that `New(SortExtractor(d))`
attaches to it is an element of `cols`. -/
theorem validated_sort_column (cols : List String) (d : SortSpec) (r : Request)
    (hs : r.URL.Query.Get "sort" ≠ "") (hv : (New [SortValidator cols] r).2 = none) :
    (GetSortContext (New [SortExtractor d] r).1).1.Column ∈ cols := by
  rw [SortExtractor_apply, GetSortContext_WithValue_sort, sortOfQuery_Column d _ hs]
  rw [SortValidator_apply] at hv
  by_contra hm
  simp [hs, hm] at hv

/-- An instance of `validated_sort_column` on the request `/?sort=-name` of
`TestSortValidator`. -/
theorem validated_sort_column_witness :
    (GetSortContext (New [SortExtractor { Column := "role", Direction := "ASC" }]
        (newRequest [("sort", ["-name"])])).1).1.Column ∈ ["name", "role"] :=
  validated_sort_column ["name", "role"] { Column := "role", Direction := "ASC" }
    (newRequest [("sort", ["-name"])]) (by decide) (by decide)

theorem New_pair {Req : Type} (a b : ConfigFilter Req) : New [a, b] = b (New [a]) := rfl

/-- C20: running `PaginationExtractor(d)` and `SortExtractor(s)` in either
argument order yields, with no error, a request on which both accessors succeed
with the values they return when each extractor is run alone on `r`; and an
extractor leaves what the other kind's accessor returns as it was. -/
theorem extractors_independent (d : Pagination) (s : SortSpec) (r : Request) :
    ((New [PaginationExtractor d, SortExtractor s] r).2 = none
        ∧ GetPaginationContext (New [PaginationExtractor d, SortExtractor s] r).1
          = GetPaginationContext (New [PaginationExtractor d] r).1
        ∧ GetSortContext (New [PaginationExtractor d, SortExtractor s] r).1
          = GetSortContext (New [SortExtractor s] r).1)
      ∧ ((New [SortExtractor s, PaginationExtractor d] r).2 = none
        ∧ GetPaginationContext (New [SortExtractor s, PaginationExtractor d] r).1
          = GetPaginationContext (New [PaginationExtractor d] r).1
        ∧ GetSortContext (New [SortExtractor s, PaginationExtractor d] r).1
          = GetSortContext (New [SortExtractor s] r).1)
      ∧ ((GetPaginationContext (New [PaginationExtractor d] r).1).2 = none
        ∧ (GetSortContext (New [SortExtractor s] r).1).2 = none)
      ∧ (GetSortContext (New [PaginationExtractor d] r).1 = GetSortContext r
        ∧ GetPaginationContext (New [SortExtractor s] r).1 = GetPaginationContext r)
      ∧ ((New [PaginationExtractor d] r).1.Context.Value ctxKeySort
          = r.Context.Value ctxKeySort
        ∧ (New [SortExtractor s] r).1.Context.Value ctxKeyPagination
          = r.Context.Value ctxKeyPagination) := by
  have h3 : (New [PaginationExtractor d] r).1.Context.Value ctxKeySort
      = r.Context.Value ctxKeySort := by
    rw [PaginationExtractor_apply]
    simp [Request.WithContext, Request.Context, WithValue, Context.Value, ctxKeySort,
      ctxKeyPagination]
  have h4 : (New [SortExtractor s] r).1.Context.Value ctxKeyPagination
      = r.Context.Value ctxKeyPagination := by
    rw [SortExtractor_apply]
    simp [Request.WithContext, Request.Context, WithValue, Context.Value, ctxKeySort,
      ctxKeyPagination]
  have h1 : New [PaginationExtractor d, SortExtractor s] r
      = New [PaginationExtractor d] (New [SortExtractor s] r).1 := by
    rw [New_pair, SortExtractor_apply]
    simp only [SortExtractor, ExtractParam, sortOfQuery_eq]
  have h2 : New [SortExtractor s, PaginationExtractor d] r
      = New [SortExtractor s] (New [PaginationExtractor d] r).1 := by
    rw [New_pair, PaginationExtractor_apply]
    by_cases hl : r.URL.Query.Get "limit" = "" <;>
      by_cases ho : r.URL.Query.Get "offset" = "" <;>
      simp [PaginationExtractor, ExtractParam, paginationOfQuery, hl, ho]
  refine ⟨?_, ?_, ?_, ?_, ⟨h3, h4⟩⟩ <;>
    simp only [h1, h2, PaginationExtractor_apply, SortExtractor_apply, WithContext_URL,
      GetPaginationContext_WithValue_pagination, GetSortContext_WithValue_sort,
      GetPaginationContext_WithValue_sort, GetSortContext_WithValue_pagination, and_self]

end Earlygrave
